import Mathlib

/-!
Shallow embedding of the KLV parser (`src/parser/mod.rs`) of the
`klv_parser` repository.

Bytes are modelled as `Nat` values (every value read from a buffer comes
from a Rust `u8`, hence lies in `[0, 255]`; the `u32` arithmetic in
`u8s_to_u32` cannot overflow on such inputs, so no wraparound modelling is
needed).  A Rust `panic!` / `.expect(..)` abort is modelled as the
`PResult.panicked` outcome; `Option`-returning Rust functions keep their
`Option` shape.
-/

/-- The distinct panic sites of the Rust code, standing in for the panic
messages of `expect` / `panic!` calls and for slice-index aborts. -/
inductive PanicMsg where
  | unableToParseKey
  | unableToParseLength
  | unableToParseValue
  | sliceOutOfRange
  | u8sSizeBetween2And4
  | u8sAtLeastTwo
  | u8sAtLeastThree
  | u8sAtLeastFour
deriving DecidableEq

/-- Outcome of running a piece of Rust code that may panic. -/
inductive PResult (α : Type) where
  | ok (a : α)
  | panicked (msg : PanicMsg)
deriving DecidableEq

/-- `const KEY_LENGTH: usize = 16;` -/
def KEY_LENGTH : Nat := 16

/-- `struct Klv { key, length, value }`; the key is the 16-byte slice copied
out of the input. -/
structure Klv where
  key : List Nat
  length : Nat
  value : List Nat
deriving DecidableEq

/-- `struct Parser { input, klvs, cursor }`.  The `klvs` field exists in the
Rust struct but is never pushed to; it is kept for fidelity. -/
structure Parser where
  input : List Nat
  klvs : List Klv
  cursor : Nat
deriving DecidableEq

/-- `Parser::new` -/
def Parser.new (input : List Nat) : Parser :=
  { input := input, klvs := [], cursor := 0 }

/-- `Parser::has_next`: `self.cursor < self.input.len()` -/
def Parser.has_next (p : Parser) : Bool :=
  p.cursor < p.input.length

/-- `Parser::increment_cursor`: `self.cursor += bytes` -/
def Parser.increment_cursor (p : Parser) (bytes : Nat) : Parser :=
  { p with cursor := p.cursor + bytes }

/-- `two_u8s_to_u32`: `(u32::from(bytes[1]) << 8) | u32::from(bytes[0])`,
panicking when the slice has fewer than two elements. -/
def two_u8s_to_u32 (bytes : List Nat) : PResult Nat :=
  if 2 ≤ bytes.length then
    .ok ((bytes.getD 1 0 <<< 8) ||| bytes.getD 0 0)
  else
    .panicked .u8sAtLeastTwo

/-- `three_u8s_to_u32`: `(bytes[2] << 16) | (bytes[1] << 8) | bytes[0]`. -/
def three_u8s_to_u32 (bytes : List Nat) : PResult Nat :=
  if 3 ≤ bytes.length then
    .ok ((bytes.getD 2 0 <<< 16) ||| (bytes.getD 1 0 <<< 8) ||| bytes.getD 0 0)
  else
    .panicked .u8sAtLeastThree

/-- `four_u8s_to_u32`: `(bytes[3] << 24) | (bytes[2] << 16) | (bytes[1] << 8) | bytes[0]`. -/
def four_u8s_to_u32 (bytes : List Nat) : PResult Nat :=
  if 4 ≤ bytes.length then
    .ok ((bytes.getD 3 0 <<< 24) ||| (bytes.getD 2 0 <<< 16) |||
      (bytes.getD 1 0 <<< 8) ||| bytes.getD 0 0)
  else
    .panicked .u8sAtLeastFour

/-- `u8s_to_u32`: dispatches on the slice length, panicking unless the
length is 2, 3 or 4. -/
def u8s_to_u32 (bytes : List Nat) : PResult Nat :=
  match bytes.length with
  | 2 => two_u8s_to_u32 bytes
  | 3 => three_u8s_to_u32 bytes
  | 4 => four_u8s_to_u32 bytes
  | _ => .panicked .u8sSizeBetween2And4

/-- `Parser::get_length`.  Short form (`byte < 128`): consume one byte and
return it.  Long form: `bytes_length = byte - 127`, slice
`input[cursor .. cursor + bytes_length]` (a slice that starts at the marker
byte itself; out of bounds is a Rust panic), advance the cursor by
`bytes_length` and feed the slice to `u8s_to_u32`.  Cursor already at the
end: `None`. -/
def Parser.get_length (p : Parser) : PResult (Option Nat × Parser) :=
  if p.cursor < p.input.length then
    let byte := p.input.getD p.cursor 0
    if byte < 128 then
      .ok (some byte, p.increment_cursor 1)
    else
      let bytes_length := byte - 127
      if p.cursor + bytes_length ≤ p.input.length then
        let u8s_array := (p.input.drop p.cursor).take bytes_length
        match u8s_to_u32 u8s_array with
        | .ok num => .ok (some num, p.increment_cursor bytes_length)
        | .panicked m => .panicked m
      else
        .panicked .sliceOutOfRange
  else
    .ok (none, p)

/-- `Parser::get_key`: requires `cursor < len ∧ cursor + 16 ≤ len`, copies
the 16-byte slice and advances the cursor by `KEY_LENGTH`. -/
def Parser.get_key (p : Parser) : Option (List Nat × Parser) :=
  let cursor_start_pos := p.cursor
  let cursor_end_pos := p.cursor + KEY_LENGTH
  if p.cursor < p.input.length ∧ cursor_end_pos ≤ p.input.length then
    some ((p.input.drop cursor_start_pos).take KEY_LENGTH,
      p.increment_cursor KEY_LENGTH)
  else
    none

/-- `Parser::get_value`: requires `cursor < len ∧ cursor + length ≤ len`,
copies the `length`-byte slice and advances the cursor. -/
def Parser.get_value (p : Parser) (length : Nat) : Option (List Nat × Parser) :=
  let cursor_start_pos := p.cursor
  let cursor_end_pos := p.cursor + length
  if p.cursor < p.input.length ∧ cursor_end_pos ≤ p.input.length then
    some ((p.input.drop cursor_start_pos).take length,
      p.increment_cursor length)
  else
    none

/-- `Parser::read_next`: `get_key`, `get_length`, `get_value`, each behind
an `.expect(..)` that panics on failure. -/
def Parser.read_next (p : Parser) : PResult (Klv × Parser) :=
  match p.get_key with
  | none => .panicked .unableToParseKey
  | some (key, p1) =>
    match p1.get_length with
    | .panicked m => .panicked m
    | .ok (none, _) => .panicked .unableToParseLength
    | .ok (some length, p2) =>
      match p2.get_value length with
      | none => .panicked .unableToParseValue
      | some (value, p3) =>
        .ok ({ key := key, length := length, value := value }, p3)

/-- `get_key` succeeded: the input is untouched, the cursor moved forward by
exactly 16 and stayed within bounds. -/
theorem get_key_spec (p : Parser) (k : List Nat) (p' : Parser)
    (h : p.get_key = some (k, p')) :
    p'.input = p.input ∧ p'.klvs = p.klvs ∧
      p'.cursor = p.cursor + 16 ∧ p.cursor + 16 ≤ p.input.length := by
  simp only [Parser.get_key] at h
  split at h
  · next hc =>
    simp only [Option.some.injEq, Prod.mk.injEq] at h
    obtain ⟨-, rfl⟩ := h
    exact ⟨rfl, rfl, rfl, hc.2⟩
  · exact absurd h (by simp)

set_option maxRecDepth 4000 in
/-- `get_length` succeeded with a value: the input is untouched, the cursor
moved forward by at least one byte and stayed within bounds. -/
theorem get_length_spec (p : Parser) (v : Nat) (p' : Parser)
    (h : p.get_length = .ok (some v, p')) :
    p'.input = p.input ∧ p'.klvs = p.klvs ∧
      p.cursor + 1 ≤ p'.cursor ∧ p'.cursor ≤ p.input.length := by
  simp only [Parser.get_length] at h
  split at h
  · next hc =>
    split at h
    · next hshort =>
      simp only [PResult.ok.injEq, Prod.mk.injEq, Option.some.injEq] at h
      obtain ⟨-, rfl⟩ := h
      exact ⟨rfl, rfl, Nat.le_refl _, hc⟩
    · next hlong =>
      split at h
      · next hb =>
        split at h
        · next num hnum =>
          simp only [PResult.ok.injEq, Prod.mk.injEq, Option.some.injEq] at h
          obtain ⟨-, rfl⟩ := h
          refine ⟨rfl, rfl, ?_, hb⟩
          simp only [Parser.increment_cursor]
          omega
        · exact absurd h (by simp)
      · exact absurd h (by simp)
  · exact absurd h (by simp)

/-- `get_value` succeeded: the input is untouched, the cursor moved forward
by exactly `n` and stayed within bounds. -/
theorem get_value_spec (p : Parser) (n : Nat) (v : List Nat) (p' : Parser)
    (h : p.get_value n = some (v, p')) :
    p'.input = p.input ∧ p'.klvs = p.klvs ∧
      p'.cursor = p.cursor + n ∧ p.cursor + n ≤ p.input.length := by
  simp only [Parser.get_value] at h
  split at h
  · next hc =>
    simp only [Option.some.injEq, Prod.mk.injEq] at h
    obtain ⟨-, rfl⟩ := h
    exact ⟨rfl, rfl, rfl, hc.2⟩
  · exact absurd h (by simp)

/-- `read_next` succeeded: the input is untouched and the cursor strictly
advanced (by at least the 16 key bytes) while staying within bounds. -/
theorem read_next_spec (p : Parser) (k : Klv) (p' : Parser)
    (h : p.read_next = .ok (k, p')) :
    p'.input = p.input ∧ p.cursor + 16 ≤ p'.cursor ∧
      p'.cursor ≤ p.input.length := by
  unfold Parser.read_next at h
  split at h
  · exact absurd h (by simp)
  · next key p1 hkey =>
    split at h
    · exact absurd h (by simp)
    · exact absurd h (by simp)
    · next length p2 hlen =>
      split at h
      · exact absurd h (by simp)
      · next value p3 hval =>
        simp only [PResult.ok.injEq, Prod.mk.injEq] at h
        obtain ⟨-, rfl⟩ := h
        obtain ⟨h1i, -, h1c, -⟩ := get_key_spec p key p1 hkey
        obtain ⟨h2i, -, h2c, h2b⟩ := get_length_spec p1 length p2 hlen
        obtain ⟨h3i, -, h3c, h3b⟩ := get_value_spec p2 length value p3 hval
        refine ⟨by rw [h3i, h2i, h1i], by omega, ?_⟩
        rw [h2i, h1i] at h3b
        omega

/-- The `while parser.has_next()` loop of `parse`, accumulating emitted
records; a failing `read_next` aborts the whole run (the accumulated
records are lost, as a Rust panic loses `klv_vec`). -/
def parseGo (p : Parser) (acc : List Klv) : PResult (List Klv) :=
  if p.has_next then
    match h : p.read_next with
    | .panicked m => .panicked m
    | .ok (klv, p') => parseGo p' (acc ++ [klv])
  else
    .ok acc
termination_by p.input.length - p.cursor
decreasing_by
  obtain ⟨hi, hc, hb⟩ := read_next_spec p klv p' h
  rename_i hnext
  simp only [Parser.has_next, decide_eq_true_eq] at hnext
  rw [hi]
  omega

/-- `pub fn parse(bytes: &[u8]) -> Vec<Klv>` -/
def parse (bytes : List Nat) : PResult (List Klv) :=
  parseGo (Parser.new bytes) []

/-- Unfolding lemma: loop exit. -/
theorem parseGo_stop (p : Parser) (acc : List Klv) (h : p.has_next = false) :
    parseGo p acc = .ok acc := by
  rw [parseGo.eq_def]
  simp [h]

/-- Unfolding lemma: a panicking iteration. -/
theorem parseGo_panic (p : Parser) (acc : List Klv) (m : PanicMsg)
    (hn : p.has_next = true) (h : p.read_next = .panicked m) :
    parseGo p acc = .panicked m := by
  rw [parseGo.eq_def]
  simp only [hn, if_true]
  split
  · next m2 heq => rw [h] at heq; injection heq with h2; rw [h2]
  · next klv p' heq => rw [h] at heq; simp at heq

/-- Unfolding lemma: a successful iteration. -/
theorem parseGo_step (p : Parser) (acc : List Klv) (klv : Klv) (p' : Parser)
    (hn : p.has_next = true) (h : p.read_next = .ok (klv, p')) :
    parseGo p acc = parseGo p' (acc ++ [klv]) := by
  rw [parseGo.eq_def]
  simp only [hn, if_true]
  split
  · next m2 heq => rw [h] at heq; simp at heq
  · next klv2 p2 heq =>
    rw [h] at heq
    injection heq with h2
    injection h2 with h3 h4
    rw [h3, h4]

set_option maxRecDepth 4000 in
/-- `get_length` succeeded with `none`: the parser state is unchanged. -/
theorem get_length_none (p p' : Parser) (h : p.get_length = .ok (none, p')) :
    p' = p := by
  simp only [Parser.get_length] at h
  split at h
  · split at h
    · simp at h
    · split at h
      · split at h
        · simp at h
        · simp at h
      · simp at h
  · simp only [PResult.ok.injEq, Prod.mk.injEq] at h
    exact h.2.symm

/-- Fuel-indexed rendering of the `while parser.has_next()` loop of `parse`:
`none` means the iteration budget ran out before the loop finished. -/
def parseFuel : Nat → Parser → List Klv → Option (PResult (List Klv))
  | 0, p, acc => if p.has_next then none else some (.ok acc)
  | fuel + 1, p, acc =>
    if p.has_next then
      match p.read_next with
      | .panicked m => some (.panicked m)
      | .ok (klv, p') => parseFuel fuel p' (acc ++ [klv])
    else
      some (.ok acc)

/-- A budget of `remaining bytes` iterations always suffices: the loop never
runs out of fuel, because every successful `read_next` strictly advances the
cursor. -/
theorem parseFuel_complete (fuel : Nat) (p : Parser) (acc : List Klv)
    (hf : p.input.length - p.cursor ≤ fuel) :
    parseFuel fuel p acc = some (parseGo p acc) := by
  induction fuel generalizing p acc with
  | zero =>
    have hn : p.has_next = false := by
      simp only [Parser.has_next, decide_eq_false_iff_not]
      omega
    rw [parseGo_stop p acc hn]
    simp [parseFuel, hn]
  | succ n ih =>
    cases hn : p.has_next with
    | false =>
      rw [parseGo_stop p acc hn]
      simp [parseFuel, hn]
    | true =>
      cases hr : p.read_next with
      | panicked m =>
        rw [parseGo_panic p acc m hn hr]
        simp [parseFuel, hn, hr]
      | ok a =>
        obtain ⟨klv, p'⟩ := a
        rw [parseGo_step p acc klv p' hn hr]
        obtain ⟨hi, hc, hb⟩ := read_next_spec p klv p' hr
        have hn' : p.cursor < p.input.length := by
          simpa [Parser.has_next] using hn
        have hf' : p'.input.length - p'.cursor ≤ n := by
          rw [hi]
          omega
        simp only [parseFuel, hn, hr, if_true]
        exact ih p' (acc ++ [klv]) hf'

set_option maxRecDepth 4000 in
/-- C1: for every input byte `b` with the most significant bit set
(`b ≥ 128`), `get_length` takes the long form: the low 7 bits of `b`
(`b - 128`) give the octet count, and a successful decode consumes exactly
`1 + octet_count` bytes in total, leaving the input untouched. -/
theorem c1_long_form_consumed (p : Parser) (b v : Nat) (p' : Parser)
    (hb : p.input.getD p.cursor 0 = b) (hmsb : 128 ≤ b)
    (hok : p.get_length = .ok (some v, p')) :
    p'.input = p.input ∧ p'.cursor = p.cursor + (1 + (b - 128)) := by
  simp only [Parser.get_length, hb] at hok
  split at hok
  · next hc =>
    split at hok
    · next hshort => exact absurd hshort (by omega)
    · next hlong =>
      split at hok
      · next hbound =>
        split at hok
        · next num hnum =>
          simp only [PResult.ok.injEq, Prod.mk.injEq, Option.some.injEq] at hok
          obtain ⟨-, rfl⟩ := hok
          refine ⟨rfl, ?_⟩
          simp only [Parser.increment_cursor]
          omega
        · simp at hok
      · simp at hok
  · simp at hok

/-- C1 witness: on the buffer `[0x82, 5, 6]` the long form consumes
`1 + (0x82 - 0x80) = 3` bytes. -/
theorem c1_long_form_consumed_witness :
    (⟨[130, 5, 6], [], 3⟩ : Parser).input = (Parser.new [130, 5, 6]).input ∧
      (⟨[130, 5, 6], [], 3⟩ : Parser).cursor =
        (Parser.new [130, 5, 6]).cursor + (1 + (130 - 128)) :=
  c1_long_form_consumed (Parser.new [130, 5, 6]) 130 394626 ⟨[130, 5, 6], [], 3⟩
    (by decide) (by decide) (by decide)

/-- C2 (code divergence): on `[0x82, 0x00, 0x7B]` the code slices
`bytes_length = 0x82 - 127 = 3` bytes starting at the marker byte itself and
assembles them least-significant byte first, so it returns
`(0x7B <<< 16) ||| (0x00 <<< 8) ||| 0x82 = 8061058` with 3 bytes consumed —
not the big-endian value 123 the claim requires. -/
theorem c2_little_endian_marker_included :
    (Parser.new [130, 0, 123]).get_length =
        .ok (some 8061058, { input := [130, 0, 123], klvs := [], cursor := 3 }) ∧
      (8061058 : Nat) ≠ 123 :=
  ⟨by decide, by decide⟩

/-- C3 (code divergence): a buffer holding one well-formed Klv followed by
three trailing bytes makes `parse` hit the `.expect("Unable to parse key")`
panic on the second iteration; the run aborts and the already-emitted Klv is
lost, instead of a typed error paired with the partial result. -/
theorem c3_panic_loses_partial :
    parse [6, 14, 43, 52, 2, 11, 1, 1, 14, 1, 3, 1, 1, 0, 0, 0, 1, 170, 1, 2, 3] =
      .panicked .unableToParseKey := by
  rw [parse]
  rw [parseGo_step _ _
    ⟨[6, 14, 43, 52, 2, 11, 1, 1, 14, 1, 3, 1, 1, 0, 0, 0], 1, [170]⟩
    ⟨[6, 14, 43, 52, 2, 11, 1, 1, 14, 1, 3, 1, 1, 0, 0, 0, 1, 170, 1, 2, 3], [], 18⟩
    (by decide) (by decide)]
  exact parseGo_panic _ _ _ (by decide) (by decide)

/-- C4 (code divergence): on `[0x80]` (octet count 0) the code slices the
single marker byte and hands it to `u8s_to_u32`, which panics because the
slice length is not 2, 3 or 4 — there is no typed `InvalidLengthEncoding`
result. -/
theorem c4_octet_count_zero_panics :
    (Parser.new [128]).get_length = .panicked .u8sSizeBetween2And4 := by
  decide

/-- C5 (code divergence): on a 10-byte buffer (shorter than one Key) the
first `get_key` fails and `read_next` panics via
`.expect("Unable to parse key")`; `parse` aborts instead of returning a
typed `UnexpectedEndOfInput` with an empty partial result. -/
theorem c5_short_buffer_panics :
    parse [0, 0, 0, 0, 0, 0, 0, 0, 0, 0] = .panicked .unableToParseKey := by
  rw [parse]
  exact parseGo_panic _ _ _ (by decide) (by decide)

set_option maxRecDepth 4000 in
/-- C6: for every byte `b < 128` at the cursor, `get_length` takes the short
form: it returns `b` and advances the cursor by exactly one byte. -/
theorem c6_short_form_length (p : Parser) (b : Nat)
    (hcur : p.cursor < p.input.length)
    (hb : p.input.getD p.cursor 0 = b) (hb7 : b < 128) :
    p.get_length = .ok (some b, p.increment_cursor 1) := by
  simp only [Parser.get_length, hb]
  rw [if_pos hcur, if_pos hb7]

/-- C6 witness: on the buffer `[5]` the short form returns length 5 and
consumes one byte. -/
theorem c6_short_form_length_witness :
    (Parser.new [5]).get_length = .ok (some 5, (Parser.new [5]).increment_cursor 1) :=
  c6_short_form_length (Parser.new [5]) 5 (by decide) (by decide) (by decide)

/-- C7: every operation preserves the cursor invariant
`position ≤ len(buffer)`: whichever of `get_length`, `get_key`, `get_value`
or `read_next` produced the new state, the buffer is unchanged and the new
position still lies within it; a read that would pass the end never yields a
success state. -/
theorem c7_cursor_invariant (p p' : Parser)
    (hp : p.cursor ≤ p.input.length)
    (hstep : (∃ v, p.get_length = .ok (v, p')) ∨
      (∃ k, p.get_key = some (k, p')) ∨
      (∃ n v, p.get_value n = some (v, p')) ∨
      (∃ kv, p.read_next = .ok (kv, p'))) :
    p'.input = p.input ∧ p'.cursor ≤ p'.input.length := by
  rcases hstep with ⟨v, h⟩ | ⟨k, h⟩ | ⟨n, v, h⟩ | ⟨kv, h⟩
  · cases v with
    | none =>
      have he := get_length_none p p' h
      subst he
      exact ⟨rfl, hp⟩
    | some v =>
      obtain ⟨hi, -, hc, hb⟩ := get_length_spec p v p' h
      refine ⟨hi, ?_⟩
      rw [hi]
      omega
  · obtain ⟨hi, -, hc, hb⟩ := get_key_spec p k p' h
    refine ⟨hi, ?_⟩
    rw [hi]
    omega
  · obtain ⟨hi, -, hc, hb⟩ := get_value_spec p n v p' h
    refine ⟨hi, ?_⟩
    rw [hi]
    omega
  · obtain ⟨hi, hc, hb⟩ := read_next_spec p kv p' h
    refine ⟨hi, ?_⟩
    rw [hi]
    omega

/-- C7 witness: the short-form `get_length` step on the buffer `[5]` moves
the cursor from 0 to 1 and `1 ≤ len [5]`. -/
theorem c7_cursor_invariant_witness :
    (⟨[5], [], 1⟩ : Parser).input = (Parser.new [5]).input ∧
      (⟨[5], [], 1⟩ : Parser).cursor ≤ (⟨[5], [], 1⟩ : Parser).input.length :=
  c7_cursor_invariant (Parser.new [5]) ⟨[5], [], 1⟩ (by decide)
    (Or.inl ⟨some 5, by decide⟩)

/-- C8: parsing the empty buffer yields the empty record list and no
error (the loop body is never entered). -/
theorem c8_empty_parse : parse [] = .ok [] := by
  rw [parse]
  exact parseGo_stop _ _ (by decide)

/-- C9: the top-level parse terminates on every input buffer: running the
`while` loop with an iteration budget of `len(buffer)` always completes
(never exhausts the fuel) and computes exactly `parse bytes`, because every
successful `read_next` consumes at least one byte. -/
theorem c9_parse_terminates (bytes : List Nat) :
    parseFuel bytes.length (Parser.new bytes) [] = some (parse bytes) :=
  parseFuel_complete bytes.length (Parser.new bytes) []
    (by simp [Parser.new])

/-- C10: when the declared value length is 0 and the cursor sits exactly at
the end of the buffer, `get_value` returns `none` (the guard
`cursor < len` fails) instead of an empty byte sequence; consequently a
buffer whose final record declares a zero-length value is rejected — `parse`
hits the `.expect("Unable to parse value")` panic — rather than parsed
successfully. -/
theorem c10_zero_length_value_at_end (p : Parser)
    (h : p.cursor = p.input.length) :
    p.get_value 0 = none ∧
      parse [6, 14, 43, 52, 2, 11, 1, 1, 14, 1, 3, 1, 1, 0, 0, 0, 0] =
        .panicked .unableToParseValue := by
  constructor
  · simp only [Parser.get_value]
    rw [if_neg]
    intro hc
    omega
  · rw [parse]
    exact parseGo_panic _ _ _ (by decide) (by decide)

/-- C10 witness: a parser whose cursor is at the end of its 1-byte buffer. -/
theorem c10_zero_length_value_at_end_witness :
    (⟨[1], [], 1⟩ : Parser).get_value 0 = none ∧
      parse [6, 14, 43, 52, 2, 11, 1, 1, 14, 1, 3, 1, 1, 0, 0, 0, 0] =
        .panicked .unableToParseValue :=
  c10_zero_length_value_at_end ⟨[1], [], 1⟩ rfl
